import Mathlib

/-!
Verification development for the request-lifecycle and telemetry subsystem of
the notion-mcp server: the RequestTracker (request-tracker.ts), the
ProgressReporter (progress-reporter.ts) and the LogShipper (log-shipper.ts),
shallowly embedded in Lean 4.  Maps are embedded as association lists, the
JavaScript event loop as explicit step sequences, clock reads and the outcome
of each external call (notification send, HTTPS delivery) as explicit
parameters.  JavaScript numbers used for progress values and timestamps are
embedded as integers; only order comparisons are performed on them in the
source.
-/

namespace NotionMcp

/-! ### Association lists, embedding the JavaScript Map objects -/

section AList

variable {κ : Type} {α : Type} [DecidableEq κ]

/-- Map.get: value of the first entry with the given key. -/
def alGet (m : List (κ × α)) (k : κ) : Option α :=
  (m.find? fun p => decide (p.1 = k)).map (·.2)

/-- Map.set: replace the entry for the key in place, or append a new entry. -/
def alSet : List (κ × α) → κ → α → List (κ × α)
  | [], k, v => [(k, v)]
  | p :: t, k, v => if p.1 = k then (k, v) :: t else p :: alSet t k v

/-- Map.delete: remove the entry for the key, if present. -/
def alErase : List (κ × α) → κ → List (κ × α)
  | [], _ => []
  | p :: t, k => if p.1 = k then t else p :: alErase t k

theorem alGet_alSet_self (m : List (κ × α)) (k : κ) (v : α) :
    alGet (alSet m k v) k = some v := by
  induction m with
  | nil => simp [alGet, alSet, List.find?]
  | cons p t ih =>
    by_cases h : p.1 = k
    · simp [alGet, alSet, h, List.find?]
    · simpa [alGet, alSet, h, List.find?] using ih

theorem alErase_alSet (m : List (κ × α)) (k : κ) (v : α) :
    alErase (alSet m k v) k = alErase m k := by
  induction m with
  | nil => simp [alSet, alErase]
  | cons p t ih =>
    by_cases h : p.1 = k
    · simp [alSet, alErase, h]
    · simp [alSet, alErase, h, ih]

theorem alGet_eq_none_of_not_mem (m : List (κ × α)) (k : κ)
    (h : k ∉ m.map Prod.fst) : alGet m k = none := by
  induction m with
  | nil => rfl
  | cons p t ih =>
    simp only [List.map_cons, List.mem_cons] at h
    push_neg at h
    simp [alGet, List.find?, Ne.symm h.1]
    simpa [alGet] using ih h.2

theorem alGet_alErase_self (m : List (κ × α)) (k : κ)
    (hnd : (m.map Prod.fst).Nodup) : alGet (alErase m k) k = none := by
  induction m with
  | nil => simp [alGet, alErase]
  | cons p t ih =>
    simp only [List.map_cons, List.nodup_cons] at hnd
    by_cases h : p.1 = k
    · subst h
      simp only [alErase, if_pos rfl]
      exact alGet_eq_none_of_not_mem t p.1 hnd.1
    · simp only [alErase, if_neg h]
      have := ih hnd.2
      simp [alGet, List.find?, h]
      simpa [alGet] using this

end AList

/-! ### RequestTracker (src request-tracker.ts)

An operation id or progress token is a JavaScript string or number.  The
AbortController owned by each context is embedded as a cell in a store list;
a context holds the index of its cell, so a retained reference observes the
cell through the index even after the context is dropped from the maps. -/

inductive RId : Type
  | str : String → RId
  | num : Int → RId
deriving DecidableEq

/-- The observable state of an AbortController: signal.aborted plus the
abort reason. -/
structure AbortCell : Type where
  aborted : Bool
  reason : Option String
deriving DecidableEq

/-- RequestContext: requestId, abortController (by cell index), optional
progressToken, startTime, optional toolName. -/
structure RequestContext : Type where
  requestId : RId
  acIdx : Nat
  progressToken : Option RId
  startTime : Int
  toolName : Option String
deriving DecidableEq

/-- The mutable state of a RequestTracker: the store of abort cells and the
two maps activeRequests and progressTokens. -/
structure TrackerState : Type where
  store : List AbortCell
  activeRequests : List (RId × RequestContext)
  progressTokens : List (RId × RId)
deriving DecidableEq

def TrackerState.init : TrackerState := ⟨[], [], []⟩

/-- context.abortController.signal.aborted, read through the cell store. -/
def signalAborted (store : List AbortCell) (i : Nat) : Bool :=
  match store[i]? with
  | some c => c.aborted
  | none => false

/-- RequestTracker.registerRequest.  If the id is already present the existing
context is returned and nothing is touched; otherwise a fresh AbortController
cell is allocated, the context stored, and the progress-token mapping added
when a token was supplied.  now is the Date.now() reading. -/
def registerRequest (s : TrackerState) (id : RId) (tok : Option RId)
    (name : Option String) (now : Int) : TrackerState × RequestContext :=
  match alGet s.activeRequests id with
  | some ctx => (s, ctx)
  | none =>
    let ctx : RequestContext := ⟨id, s.store.length, tok, now, name⟩
    let store : List AbortCell := s.store ++ [⟨false, none⟩]
    let ar := alSet s.activeRequests id ctx
    let pt :=
      match tok with
      | some t => alSet s.progressTokens t id
      | none => s.progressTokens
    (⟨store, ar, pt⟩, ctx)

/-- RequestTracker.cleanup: remove the context and its progress-token mapping;
no-op when the id is absent.  The abort-cell store is untouched. -/
def trackerCleanup (s : TrackerState) (id : RId) : TrackerState :=
  match alGet s.activeRequests id with
  | none => s
  | some ctx =>
    let pt :=
      match ctx.progressToken with
      | some t => alErase s.progressTokens t
      | none => s.progressTokens
    ⟨s.store, alErase s.activeRequests id, pt⟩

/-- RequestTracker.cancelRequest: false when the id is absent or the signal is
already aborted; otherwise abort with the reason, clean up immediately and
return true. -/
def cancelRequest (s : TrackerState) (id : RId) (reason : Option String) :
    TrackerState × Bool :=
  match alGet s.activeRequests id with
  | none => (s, false)
  | some ctx =>
    if signalAborted s.store ctx.acIdx then (s, false)
    else
      let s' : TrackerState :=
        ⟨s.store.set ctx.acIdx ⟨true, reason⟩, s.activeRequests, s.progressTokens⟩
      (trackerCleanup s' id, true)

/-- RequestTracker.isActive: present and not aborted. -/
def isActive (s : TrackerState) (id : RId) : Bool :=
  match alGet s.activeRequests id with
  | some ctx => !signalAborted s.store ctx.acIdx
  | none => false

/-- RequestTracker.isProgressTokenActive: resolve the token to a request id
through the token map, then isActive. -/
def isProgressTokenActive (s : TrackerState) (tok : RId) : Bool :=
  match alGet s.progressTokens tok with
  | some id => isActive s id
  | none => false

/-! ### ProgressReporter (src progress-reporter.ts)

report is embedded as a pure function over the progressStates map of one
reporter.  The tracker activity check and the outcome of the awaited
server.notification call are explicit boolean parameters (active, sendOk);
now is the Date.now() reading at the head of the call.  The pair returned is
the new map together with the emitted progress value, none when the call was
dropped or the send failed (the catch block swallows the error and performs
no state update). -/

structure ProgressUpdate : Type where
  progress : Int
  total : Option Int
  message : Option String
deriving DecidableEq

structure ProgressState : Type where
  lastProgress : Int
  lastUpdateTime : Int
  updateCount : Nat
deriving DecidableEq

/-- minUpdateInterval = 100 ms. -/
def minUpdateInterval : Int := 100

abbrev PMap := List (RId × ProgressState)

/-- The send phase of ProgressReporter.report: the try block.  On a successful
send the state for the token is set (updateCount incremented from the prior
state), then removed again when total is supplied and progress has reached it;
on a failed send the error is caught and nothing is updated. -/
def reportSend (sendOk : Bool) (now : Int) (m : PMap) (tok : RId)
    (prior : Option ProgressState) (u : ProgressUpdate) : PMap × Option Int :=
  if sendOk then
    let st : ProgressState :=
      ⟨u.progress, now, ((prior.map (·.updateCount)).getD 0) + 1⟩
    let m' := alSet m tok st
    match u.total with
    | some t => if t ≤ u.progress then (alErase m' tok, some u.progress)
                else (m', some u.progress)
    | none => (m', some u.progress)
  else (m, none)

/-- ProgressReporter.report: drop when the token is inactive, drop (warn) when
prior state exists and progress does not increase, drop (debug) when prior
state exists and the elapsed time is under minUpdateInterval, otherwise send
and update state. -/
def report (active sendOk : Bool) (now : Int) (m : PMap) (tok : RId)
    (u : ProgressUpdate) : PMap × Option Int :=
  if !active then (m, none)
  else
    match alGet m tok with
    | some s =>
      if u.progress ≤ s.lastProgress then (m, none)
      else if now - s.lastUpdateTime < minUpdateInterval then (m, none)
      else reportSend sendOk now m tok (some s) u
    | none => reportSend sendOk now m tok none u

/-- One report call of a trace: the activity of the token, the outcome of the
send, the clock reading and the update passed. -/
structure RCall : Type where
  active : Bool
  sendOk : Bool
  now : Int
  update : ProgressUpdate
deriving DecidableEq

/-- Run a sequence of report calls on one channel, accumulating the emitted
progress values in order. -/
def runReports (tok : RId) : PMap × List Int → List RCall → PMap × List Int
  | acc, [] => acc
  | (m, es), c :: cs =>
    let r := report c.active c.sendOk c.now m tok c.update
    runReports tok (r.1, es ++ r.2.toList) cs

/-! ### LogShipper (src log-shipper.ts)

JavaScript string truthiness is embedded by taking the empty string for a
missing or empty value: the source tests config.endpoint, config.apiKey and
the log-record fields with `||` and `&&`, under which undefined and "" behave
identically.  The free-form metadata bag is elided: no claim concerns it and
its cleaning step (cleanMetadata) touches no field that the transport filter
inspects. -/

/-- endpoint.startsWith, embedded structurally over the character list. -/
def strStartsWith (s p : String) : Bool :=
  decide (s.data.take p.data.length = p.data)

/-- toLowerCase, embedded structurally over the character list. -/
def strToLower (s : String) : String :=
  String.mk (s.data.map Char.toLower)

structure LogShipperConfig : Type where
  endpoint : String
  apiKey : String
  requireApiKey : Bool
  batchSize : Nat
  flushInterval : Int
  maxRetries : Nat
  enabled : Bool
deriving DecidableEq

/-- LogShipper.validateConfig, in source order: throw on empty endpoint, throw
when requireApiKey and no key, log the transition warning when no key and none
required, throw when the endpoint does not start with https://.  The result is
the list of warnings logged together with ok or the thrown message. -/
def validateConfig (c : LogShipperConfig) : List String × Except String Unit :=
  if c.endpoint = "" then ([], .error "LogShipper: endpoint is required")
  else if c.requireApiKey && c.apiKey = "" then
    ([], .error "LogShipper: apiKey is required when requireApiKey is true")
  else
    let ws : List String :=
      if c.apiKey = "" && !c.requireApiKey then
        ["API key not configured. Log shipping will work now but will require an API key in the future."]
      else []
    if !(strStartsWith c.endpoint "https://") then
      (ws, .error "LogShipper: endpoint must use HTTPS")
    else (ws, .ok ())

/-- The LogShipper constructor: when the config is disabled it returns at once
without validating; otherwise it validates (the timer start and the local
initialization log that follow do not throw and are elided). -/
def constructShipper (c : LogShipperConfig) : List String × Except String Unit :=
  if !c.enabled then ([], .ok ()) else validateConfig c

/-- A LogEntry; optional string fields are "" when absent, matching their
treatment by `||` in the source.  The metadata bag is elided (see above). -/
structure LogEntry : Type where
  timestamp : String
  level : String
  sessionId : String
  user : String
  integration : String
  component : String
  action : String
  message : String
  serverName : String
  projectId : String
  organizationId : String
deriving DecidableEq

/-- Environment variables read by validateAndCleanLogs. -/
structure ShipperEnv : Type where
  coretextUser : String
  projectId : String
  organizationId : String
deriving DecidableEq

/-- LogShipper.mapLogLevelToValidEnum: lowercase lookup in the level map with
fatal collapsing to error, defaulting to info. -/
def mapLogLevelToValidEnum (level : String) : String :=
  let levelStr := if level = "" then "info" else level
  let l := strToLower levelStr
  if l = "info" then "info"
  else if l = "error" then "error"
  else if l = "warn" then "warn"
  else if l = "warning" then "warn"
  else if l = "debug" then "debug"
  else if l = "fatal" then "error"
  else "info"

/-- LogShipper.mapComponentToValidEnum: lowercase lookup in the component map,
defaulting to client. -/
def mapComponentToValidEnum (component : String) : String :=
  let componentStr := if component = "" then "client" else component
  let l := strToLower componentStr
  if l = "server" then "client"
  else if l = "client" then "client"
  else if l = "tools" then "tools"
  else if l = "oauth-client" then "oauth-client"
  else "client"

/-- The per-record normalization step of validateAndCleanLogs (the map).
nowIso embeds new Date().toISOString() and freshSession the generated session
id for records lacking one. -/
def cleanLog (env : ShipperEnv) (nowIso freshSession : String)
    (l : LogEntry) : LogEntry :=
  { timestamp := if l.timestamp = "" then nowIso else l.timestamp
    level := mapLogLevelToValidEnum l.level
    sessionId := if l.sessionId = "" then freshSession else l.sessionId
    user := if l.user = "" then
              (if env.coretextUser = "" then "unknown" else env.coretextUser)
            else l.user
    integration := if l.integration = "" then "unknown" else l.integration
    component := mapComponentToValidEnum l.component
    action := if l.action = "" then "unknown" else l.action
    message := if l.message = "" then "No message" else l.message
    serverName := if l.serverName = "" then "notion-mcp" else l.serverName
    projectId := if l.projectId = "" then env.projectId else l.projectId
    organizationId := if l.organizationId = "" then env.organizationId
                      else l.organizationId }

/-- The post-normalization transport filter of validateAndCleanLogs: keep a
record only when timestamp, level, user and message are all truthy. -/
def goodRecord (l : LogEntry) : Bool :=
  !(l.timestamp = "") && !(l.level = "") && !(l.user = "") && !(l.message = "")

/-- LogShipper.validateAndCleanLogs: normalize every record, then drop any
record that is still malformed. -/
def validateAndCleanLogs (env : ShipperEnv) (nowIso freshSession : String)
    (logs : List LogEntry) : List LogEntry :=
  (logs.map (cleanLog env nowIso freshSession)).filter goodRecord

/-- The error thrown by sendLogs on a non-2xx response (error.status carries
the HTTP status), or a network error from fetch (no status field). -/
inductive DeliveryError : Type
  | http : Nat → DeliveryError
  | network : DeliveryError
deriving DecidableEq

/-- error.status (or error.response?.status): undefined for network errors. -/
def statusOf : DeliveryError → Option Nat
  | .http s => some s
  | .network => none

/-- The non-retryable test of sendLogsWithRetry:
status >= 400 && status < 500 && status !== 429.  A network error has no
status, and every comparison on undefined is false in JavaScript. -/
def isNonRetryable (st : Option Nat) : Bool :=
  match st with
  | some s => decide (400 ≤ s) && decide (s < 500) && decide (s ≠ 429)
  | none => false

/-- The outcome of one sendLogs call (one delivery attempt). -/
inductive AttemptOutcome : Type
  | success : AttemptOutcome
  | fail : DeliveryError → AttemptOutcome
deriving DecidableEq

/-- The observable result of sendLogsWithRetry: how many delivery attempts
were made, the backoff delays awaited between attempts in order, and whether
the call resolved or threw. -/
structure RetryResult : Type where
  attemptsMade : Nat
  delays : List Nat
  outcome : Except DeliveryError Unit

/-- The retry loop of sendLogsWithRetry.  attempt is the loop counter, fuel
the number of loop iterations left (maxRetries - attempt + 1); outcomes gives
the result of the sendLogs call of each attempt.  A non-retryable client
error or the failure of the final attempt is rethrown; otherwise the backoff
delay (429 ? 1000 : 500) * 2 ^ (attempt - 1) is awaited and the loop
continues. -/
def retryGo (outcomes : Nat → AttemptOutcome) (maxRetries : Nat) :
    Nat → Nat → List Nat → RetryResult
  | attempt, 0, delays => ⟨attempt - 1, delays.reverse, .ok ()⟩
  | attempt, fuel + 1, delays =>
    match outcomes attempt with
    | .success => ⟨attempt, delays.reverse, .ok ()⟩
    | .fail e =>
      if isNonRetryable (statusOf e) then ⟨attempt, delays.reverse, .error e⟩
      else if attempt = maxRetries then ⟨attempt, delays.reverse, .error e⟩
      else
        let base : Nat := if statusOf e = some 429 then 1000 else 500
        retryGo outcomes maxRetries (attempt + 1) fuel
          (base * 2 ^ (attempt - 1) :: delays)

/-- LogShipper.sendLogsWithRetry: the loop runs attempts 1 .. maxRetries. -/
def sendLogsWithRetry (maxRetries : Nat) (outcomes : Nat → AttemptOutcome) :
    RetryResult :=
  retryGo outcomes maxRetries 1 maxRetries []

/-- LogShipper.flush: no-op when disabled or the queue is empty; otherwise
splice up to batchSize entries off the head, deliver with retry, and on
failure unshift the whole batch back onto the head of the queue and rethrow.
added is the list of entries pushed by addLog while the delivery was awaited
(they sit behind the spliced remainder); the returned option is the rethrown
error. -/
def flush (cfg : LogShipperConfig) (q added : List LogEntry)
    (outcomes : Nat → AttemptOutcome) : List LogEntry × Option DeliveryError :=
  if !cfg.enabled || q.isEmpty then (q, none)
  else
    let batch := q.take cfg.batchSize
    let rest := q.drop cfg.batchSize
    match (sendLogsWithRetry cfg.maxRetries outcomes).outcome with
    | .ok _ => (rest ++ added, none)
    | .error e => (batch ++ (rest ++ added), some e)

/-! ### Event-loop interleaving model of the shipper

flush is async and suspends at `await this.sendLogsWithRetry(batch)`; its
synchronous prefix (the guard and the splice) and its resumption (success, or
unshift of the batch on failure) are therefore separate atomic steps on the
event loop.  A step sequence interleaves addLog calls, flush invocations
reaching their suspension point (whether started by the interval timer, by
the batch-size trigger in addLog, or explicitly), and flush resumptions.
inFlight holds the batch of every flush invocation whose delivery is
currently awaited; the ghost counters count entries accepted by addLog and
entries removed by a successful delivery. -/

structure ShipperLoopState : Type where
  queue : List LogEntry
  inFlight : List (List LogEntry)
  accepted : Nat
  delivered : Nat
deriving DecidableEq

def ShipperLoopState.init : ShipperLoopState := ⟨[], [], 0, 0⟩

inductive ShipStep : Type
  | add : LogEntry → ShipStep
  | start : ShipStep
  | complete : Nat → Bool → ShipStep
deriving DecidableEq

/-- Execute one event-loop step.  add mirrors the push in addLog (a no-op
when disabled); start mirrors the synchronous prefix of flush (guard, then
splice of up to batchSize entries, leaving the delivery in flight); complete
i ok mirrors the resumption of the i-th in-flight flush: on success the batch
is gone, on failure it is unshifted back onto the head of the queue. -/
def shipStep (cfg : LogShipperConfig) (s : ShipperLoopState) :
    ShipStep → ShipperLoopState
  | .add e =>
    if !cfg.enabled then s
    else ⟨s.queue ++ [e], s.inFlight, s.accepted + 1, s.delivered⟩
  | .start =>
    if !cfg.enabled || s.queue.isEmpty then s
    else
      ⟨s.queue.drop cfg.batchSize, s.inFlight ++ [s.queue.take cfg.batchSize],
        s.accepted, s.delivered⟩
  | .complete i ok =>
    match s.inFlight[i]? with
    | none => s
    | some b =>
      if ok then
        ⟨s.queue, s.inFlight.eraseIdx i, s.accepted, s.delivered + b.length⟩
      else
        ⟨b ++ s.queue, s.inFlight.eraseIdx i, s.accepted, s.delivered⟩

/-- Run a sequence of event-loop steps from the initial state. -/
def shipRun (cfg : LogShipperConfig) (steps : List ShipStep) : ShipperLoopState :=
  steps.foldl (shipStep cfg) ShipperLoopState.init

/-! ### Helper lemmas -/

theorem getElem?_set_self_of_lt {α : Type} :
    ∀ (l : List α) (i : Nat) (a : α), i < l.length → (l.set i a)[i]? = some a := by
  intro l
  induction l with
  | nil => intro i a h; simp at h
  | cons x t ih =>
    intro i a h
    cases i with
    | zero => simp
    | succ j =>
      simp only [List.set_cons_succ, List.getElem?_cons_succ]
      exact ih j a (by simpa using h)

theorem sum_map_length_eraseIdx {α : Type} :
    ∀ (l : List (List α)) (i : Nat) (b : List α), l[i]? = some b →
    ((l.eraseIdx i).map List.length).sum + b.length = (l.map List.length).sum := by
  intro l
  induction l with
  | nil => intro i b h; simp at h
  | cons x t ih =>
    intro i b h
    cases i with
    | zero =>
      simp only [List.getElem?_cons_zero, Option.some.injEq] at h
      subst h
      simp [List.eraseIdx]
      omega
    | succ j =>
      simp only [List.getElem?_cons_succ] at h
      simp only [List.eraseIdx, List.map_cons, List.sum_cons]
      have := ih j b h
      omega

/-! ### C5: duplicate registration -/

/-- C5: registering an operation id that is already tracked returns the
stored context itself and leaves the tracker state untouched: no new
AbortController cell is allocated, and no field of the existing context
(in particular startTime) is reset, whatever token, name or clock reading
the second registration passes. -/
theorem register_duplicate_idempotent :
    ∀ (s : TrackerState) (id : RId) (ctx : RequestContext) (tok : Option RId)
      (name : Option String) (now : Int),
    alGet s.activeRequests id = some ctx →
    registerRequest s id tok name now = (s, ctx) := by
  intro s id ctx tok name now h
  simp [registerRequest, h]

/-- C5 witness: a concrete second registration of req-1 (with different
token, name and clock) returns the first registration's context and state. -/
theorem register_duplicate_idempotent_witness :
    registerRequest
        (registerRequest TrackerState.init (RId.str "req-1")
          (some (RId.str "tok-1")) (some "query-db") 5).1
        (RId.str "req-1") none (some "other") 99 =
      ((registerRequest TrackerState.init (RId.str "req-1")
          (some (RId.str "tok-1")) (some "query-db") 5).1,
       (registerRequest TrackerState.init (RId.str "req-1")
          (some (RId.str "tok-1")) (some "query-db") 5).2) :=
  register_duplicate_idempotent _ _ _ _ _ _ (by decide)

/-! ### C4: idempotent cancellation -/

/-- C4: for a tracked operation whose handle is not yet aborted, the first
cancelRequest returns true, flips the retained AbortController cell to
aborted with the given reason, and immediately cleans the context out of the
map; a second cancelRequest on the same id returns false and changes nothing
(so the cell observed through the retained reference stays as the first call
left it); cancelRequest on an id that is not tracked returns false and
changes nothing. -/
theorem cancel_idempotent :
    (∀ (s : TrackerState) (id : RId) (ctx : RequestContext) (reason r2 : Option String),
      alGet s.activeRequests id = some ctx →
      (s.activeRequests.map Prod.fst).Nodup →
      ctx.acIdx < s.store.length →
      signalAborted s.store ctx.acIdx = false →
      (cancelRequest s id reason).2 = true ∧
      (cancelRequest s id reason).1.store[ctx.acIdx]? = some ⟨true, reason⟩ ∧
      alGet (cancelRequest s id reason).1.activeRequests id = none ∧
      cancelRequest (cancelRequest s id reason).1 id r2 =
        ((cancelRequest s id reason).1, false)) ∧
    (∀ (s : TrackerState) (id : RId) (reason : Option String),
      alGet s.activeRequests id = none →
      cancelRequest s id reason = (s, false)) := by
  constructor
  · intro s id ctx reason r2 hget hnd hlt hab
    have hres : cancelRequest s id reason =
        (trackerCleanup
          ⟨s.store.set ctx.acIdx ⟨true, reason⟩, s.activeRequests, s.progressTokens⟩ id,
         true) := by
      simp [cancelRequest, hget, hab]
    have hact : (cancelRequest s id reason).1.activeRequests =
        alErase s.activeRequests id := by
      rw [hres]
      cases ctx.progressToken <;> simp [trackerCleanup, hget]
    have hstore : (cancelRequest s id reason).1.store =
        s.store.set ctx.acIdx ⟨true, reason⟩ := by
      rw [hres]
      cases ctx.progressToken <;> simp [trackerCleanup, hget]
    have hgone : alGet (cancelRequest s id reason).1.activeRequests id = none := by
      rw [hact]
      exact alGet_alErase_self s.activeRequests id hnd
    refine ⟨by rw [hres], ?_, hgone, ?_⟩
    · rw [hstore]
      exact getElem?_set_self_of_lt s.store ctx.acIdx ⟨true, reason⟩ hlt
    · generalize hgen : (cancelRequest s id reason).1 = s1 at hgone ⊢
      simp [cancelRequest, hgone]
  · intro s id reason hget
    simp [cancelRequest, hget]

/-- C4 witness: on a freshly registered req-1 the first cancel returns true,
aborts the retained cell with the reason and removes the context, the second
cancel returns false and leaves the state alone, and cancelling an unknown id
returns false. -/
theorem cancel_idempotent_witness :
    (cancelRequest
        (registerRequest TrackerState.init (RId.str "req-1")
          (some (RId.str "tok-1")) (some "query-db") 5).1
        (RId.str "req-1") (some "user cancelled")).2 = true ∧
    (cancelRequest
        (registerRequest TrackerState.init (RId.str "req-1")
          (some (RId.str "tok-1")) (some "query-db") 5).1
        (RId.str "req-1") (some "user cancelled")).1.store[0]? =
      some ⟨true, some "user cancelled"⟩ ∧
    alGet
      (cancelRequest
        (registerRequest TrackerState.init (RId.str "req-1")
          (some (RId.str "tok-1")) (some "query-db") 5).1
        (RId.str "req-1") (some "user cancelled")).1.activeRequests
      (RId.str "req-1") = none ∧
    cancelRequest
      (cancelRequest
        (registerRequest TrackerState.init (RId.str "req-1")
          (some (RId.str "tok-1")) (some "query-db") 5).1
        (RId.str "req-1") (some "user cancelled")).1
      (RId.str "req-1") (some "again") =
      ((cancelRequest
        (registerRequest TrackerState.init (RId.str "req-1")
          (some (RId.str "tok-1")) (some "query-db") 5).1
        (RId.str "req-1") (some "user cancelled")).1, false) ∧
    cancelRequest TrackerState.init (RId.str "ghost") none =
      (TrackerState.init, false) := by
  have h := cancel_idempotent.1
    (registerRequest TrackerState.init (RId.str "req-1")
      (some (RId.str "tok-1")) (some "query-db") 5).1
    (RId.str "req-1")
    (registerRequest TrackerState.init (RId.str "req-1")
      (some (RId.str "tok-1")) (some "query-db") 5).2
    (some "user cancelled") (some "again")
    (by decide) (by decide) (by decide) (by decide)
  exact ⟨h.1, h.2.1, h.2.2.1, h.2.2.2,
    cancel_idempotent.2 TrackerState.init (RId.str "ghost") none (by decide)⟩

/-! ### Progress-reporter lemmas -/

/-- A report call on a channel whose stored lastProgress is at least the new
progress value drops: map untouched, nothing emitted. -/
theorem report_drop_nonincreasing (a so : Bool) (now : Int) (m : PMap)
    (tok : RId) (u : ProgressUpdate) (s : ProgressState)
    (hs : alGet m tok = some s) (hle : u.progress ≤ s.lastProgress) :
    report a so now m tok u = (m, none) := by
  cases a
  · simp [report]
  · simp [report, hs, hle]

/-- A report call on a channel whose stored lastUpdateTime is under
minUpdateInterval before now drops: map untouched, nothing emitted. -/
theorem report_drop_rate_limited (a so : Bool) (now : Int) (m : PMap)
    (tok : RId) (u : ProgressUpdate) (s : ProgressState)
    (hs : alGet m tok = some s) (hrl : now - s.lastUpdateTime < minUpdateInterval) :
    report a so now m tok u = (m, none) := by
  cases a
  · simp [report]
  · by_cases hle : u.progress ≤ s.lastProgress
    · simp [report, hs, hle]
    · simp [report, hs, hle, hrl]

/-- Case split for a report call whose update carries no total: it either
drops with nothing changed, or it emits the new progress value, stores it
with the call's clock reading, and the prior stored progress (if any) was
strictly below it. -/
theorem report_total_none_cases (a so : Bool) (now : Int) (m : PMap)
    (tok : RId) (u : ProgressUpdate) (ht : u.total = none) :
    report a so now m tok u = (m, none) ∨
    (∃ k, report a so now m tok u =
        (alSet m tok ⟨u.progress, now, k⟩, some u.progress) ∧
      ∀ s, alGet m tok = some s → s.lastProgress < u.progress) := by
  cases a with
  | false => exact Or.inl (by simp [report])
  | true =>
    rcases h : alGet m tok with _ | s
    · cases so
      · exact Or.inl (by simp [report, h, reportSend])
      · refine Or.inr ⟨1, by simp [report, h, reportSend, ht], ?_⟩
        intro s hs
        cases hs
    · by_cases hle : u.progress ≤ s.lastProgress
      · exact Or.inl (by simp [report, h, hle])
      · by_cases hrl : now - s.lastUpdateTime < minUpdateInterval
        · exact Or.inl (by simp [report, h, hle, hrl])
        · cases so
          · exact Or.inl (by simp [report, h, hle, hrl, reportSend])
          · refine Or.inr ⟨s.updateCount + 1, by simp [report, h, hle, hrl, reportSend, ht], ?_⟩
            intro s' hs'
            cases hs'
            exact lt_of_not_le hle

/-- Any report call that emits stores the emitted value: if state for the
channel is present afterwards it carries the call's clock reading as
lastUpdateTime and the emitted value as lastProgress (the channel keys of
the map are assumed distinct, as they are for a JavaScript Map). -/
theorem report_emit_state (a so : Bool) (now : Int) (m m' : PMap)
    (tok : RId) (u : ProgressUpdate) (p : Int) (s' : ProgressState)
    (hnd : (m.map Prod.fst).Nodup)
    (h : report a so now m tok u = (m', some p))
    (hs' : alGet m' tok = some s') :
    s'.lastUpdateTime = now ∧ s'.lastProgress = p := by
  have hcases : p = u.progress ∧
      (∃ k, m' = alSet m tok ⟨u.progress, now, k⟩ ∨
        m' = alErase (alSet m tok ⟨u.progress, now, k⟩) tok) := by
    cases a with
    | false => simp [report] at h
    | true =>
      rcases hg : alGet m tok with _ | s <;> rw [report] at h <;> simp [hg] at h
      · cases so
        · simp [reportSend] at h
        · rw [reportSend] at h
          simp at h
          rcases ht : u.total with _ | t <;> rw [ht] at h <;> simp at h
          · exact ⟨h.2.symm, _, Or.inl h.1.symm⟩
          · by_cases hc : t ≤ u.progress
            · simp [hc] at h
              exact ⟨h.2.symm, _, Or.inr h.1.symm⟩
            · simp [hc] at h
              exact ⟨h.2.symm, _, Or.inl h.1.symm⟩
      · by_cases hle : u.progress ≤ s.lastProgress
        · simp [hle] at h
        · by_cases hrl : now - s.lastUpdateTime < minUpdateInterval
          · simp [hle, hrl] at h
          · simp [hle, hrl] at h
            cases so
            · simp [reportSend] at h
            · rw [reportSend] at h
              simp at h
              rcases ht : u.total with _ | t <;> rw [ht] at h <;> simp at h
              · exact ⟨h.2.symm, _, Or.inl h.1.symm⟩
              · by_cases hc : t ≤ u.progress
                · simp [hc] at h
                  exact ⟨h.2.symm, _, Or.inr h.1.symm⟩
                · simp [hc] at h
                  exact ⟨h.2.symm, _, Or.inl h.1.symm⟩
  obtain ⟨hp, k, hset | herase⟩ := hcases
  · rw [hset, alGet_alSet_self] at hs'
    cases hs'
    exact ⟨rfl, hp.symm⟩
  · rw [herase, alErase_alSet, alGet_alErase_self m tok hnd] at hs'
    cases hs'

/-- Trace invariant: running total-free report calls preserves that the
emission list is a strictly increasing chain whose last element is the
stored lastProgress of the channel. -/
theorem runReports_chain (tok : RId) :
    ∀ (calls : List RCall) (m : PMap) (es : List Int),
    (∀ c ∈ calls, c.update.total = none) →
    List.Chain' (· < ·) es →
    (alGet m tok).map (·.lastProgress) = es.getLast? →
    List.Chain' (· < ·) (runReports tok (m, es) calls).2 := by
  intro calls
  induction calls with
  | nil =>
    intro m es _ hch _
    simpa [runReports] using hch
  | cons c cs ih =>
    intro m es hall hch hinv
    have hc : c.update.total = none := hall c (List.mem_cons_self c cs)
    have hcs : ∀ c' ∈ cs, c'.update.total = none :=
      fun c' h' => hall c' (List.mem_cons_of_mem c h')
    rcases report_total_none_cases c.active c.sendOk c.now m tok c.update hc with
      hdrop | ⟨k, hemit, hlt⟩
    · rw [runReports, hdrop]
      simpa using ih m es hcs hch hinv
    · rw [runReports, hemit]
      simp only [Option.toList_some]
      apply ih _ _ hcs
      · rw [List.chain'_append]
        refine ⟨hch, List.chain'_singleton _, ?_⟩
        intro x hx y hy
        simp only [List.head?_cons, Option.mem_def, Option.some.injEq] at hy
        subst hy
        rcases hg : alGet m tok with _ | s
        · rw [hg] at hinv
          simp only [Option.map_none'] at hinv
          rw [← hinv] at hx
          simp at hx
        · rw [hg] at hinv
          simp only [Option.map_some'] at hinv
          rw [← hinv] at hx
          simp only [Option.mem_def, Option.some.injEq] at hx
          subst hx
          exact hlt s hg
      · rw [alGet_alSet_self]
        simp

/-! ### C1: strict monotonicity of emitted progress -/

/-- C1: whenever prior state exists for a channel and a report call carries
progress at most the last accepted value, the call is dropped: nothing is
emitted (so the emission count does not increase) and the stored state map
is unchanged.  Consequently, over any sequence of report calls on a channel
that starts without state and never supplies a total (so the state is never
removed by completion), the emitted progress values are strictly
increasing. -/
theorem progress_monotonicity :
    (∀ (a so : Bool) (now : Int) (m : PMap) (tok : RId) (u : ProgressUpdate)
       (s : ProgressState),
      alGet m tok = some s → u.progress ≤ s.lastProgress →
      report a so now m tok u = (m, none)) ∧
    (∀ (tok : RId) (m0 : PMap) (calls : List RCall),
      alGet m0 tok = none →
      (∀ c ∈ calls, c.update.total = none) →
      List.Chain' (· < ·) (runReports tok (m0, []) calls).2) := by
  refine ⟨report_drop_nonincreasing, ?_⟩
  intro tok m0 calls h0 hall
  exact runReports_chain tok calls m0 [] hall (by simp) (by simp [h0])

/-- C1 witness: on a channel holding lastProgress 50, progress 40 is dropped
with the map unchanged; and a concrete three-call trace (10, then a
non-monotone 5, then 20) emits a strictly increasing sequence. -/
theorem progress_monotonicity_witness :
    report true true 2000 [(RId.str "tok-1", ⟨50, 1000, 1⟩)] (RId.str "tok-1")
        ⟨40, none, none⟩ =
      ([(RId.str "tok-1", ⟨50, 1000, 1⟩)], none) ∧
    List.Chain' (· < ·)
      (runReports (RId.str "tok-1") ([], [])
        [⟨true, true, 1000, ⟨10, none, none⟩⟩,
         ⟨true, true, 1200, ⟨5, none, none⟩⟩,
         ⟨true, true, 1400, ⟨20, none, none⟩⟩]).2 :=
  ⟨progress_monotonicity.1 true true 2000 _ _ _ ⟨50, 1000, 1⟩ (by decide) (by decide),
   progress_monotonicity.2 (RId.str "tok-1") [] _ (by decide) (by decide)⟩

/-! ### C10: failed emission leaves progress state untouched -/

/-- C10: when the awaited notification send throws, report catches the error
and performs no state update: the map is exactly as before the call (nothing
stored for a first update, nothing changed for a later one) and nothing is
emitted, so a subsequent retry behaves exactly as if the failed call had
never happened. -/
theorem progress_send_failure_state_unchanged :
    ∀ (active a2 so2 : Bool) (now now2 : Int) (m : PMap) (tok : RId)
      (u u2 : ProgressUpdate),
    report active false now m tok u = (m, none) ∧
    report a2 so2 now2 (report active false now m tok u).1 tok u2 =
      report a2 so2 now2 m tok u2 := by
  intro active a2 so2 now now2 m tok u u2
  have h1 : report active false now m tok u = (m, none) := by
    cases active
    · simp [report]
    · rcases h : alGet m tok with _ | s
      · simp [report, h, reportSend]
      · by_cases hle : u.progress ≤ s.lastProgress
        · simp [report, h, hle]
        · by_cases hrl : now - s.lastUpdateTime < minUpdateInterval
          · simp [report, h, hle, hrl]
          · simp [report, h, hle, hrl, reportSend]
  exact ⟨h1, by rw [h1]⟩

/-! ### C6: progress rate limiting -/

/-- C6: when prior state exists for a channel, a report call whose clock
reading is under minUpdateInterval (100 ms) past the stored lastUpdateTime is
dropped with the map unchanged, monotone or not; hence when one call emits
and state for the channel still exists (the update did not complete the
channel), any second call under 100 ms later is dropped and only the first
was emitted.  Channel keys of the map are distinct, as for a JavaScript
Map. -/
theorem progress_rate_limit :
    (∀ (a so : Bool) (now : Int) (m : PMap) (tok : RId) (u : ProgressUpdate)
       (s : ProgressState),
      alGet m tok = some s → now - s.lastUpdateTime < minUpdateInterval →
      report a so now m tok u = (m, none)) ∧
    (∀ (a1 so1 a2 so2 : Bool) (now1 now2 : Int) (m m1 : PMap) (tok : RId)
       (u1 u2 : ProgressUpdate) (p1 : Int) (s1 : ProgressState),
      (m.map Prod.fst).Nodup →
      report a1 so1 now1 m tok u1 = (m1, some p1) →
      alGet m1 tok = some s1 →
      now2 - now1 < minUpdateInterval →
      report a2 so2 now2 m1 tok u2 = (m1, none)) := by
  refine ⟨report_drop_rate_limited, ?_⟩
  intro a1 so1 a2 so2 now1 now2 m m1 tok u1 u2 p1 s1 hnd h1 hs1 hfast
  have ht := report_emit_state a1 so1 now1 m m1 tok u1 p1 s1 hnd h1 hs1
  exact report_drop_rate_limited a2 so2 now2 m1 tok u2 s1 hs1 (by rw [ht.1]; exact hfast)

/-- C6 witness: on a fresh channel a first call at t=1000 emits 10 and
stores state; a monotone second call at t=1050 (under 100 ms later) is
dropped with the state unchanged. -/
theorem progress_rate_limit_witness :
    report true true 1050 [(RId.str "tok-1", ⟨50, 1000, 1⟩)] (RId.str "tok-1")
        ⟨60, none, none⟩ =
      ([(RId.str "tok-1", ⟨50, 1000, 1⟩)], none) ∧
    report true true 1050 [(RId.str "tok-1", ⟨10, 1000, 1⟩)] (RId.str "tok-1")
        ⟨20, none, none⟩ =
      ([(RId.str "tok-1", ⟨10, 1000, 1⟩)], none) :=
  ⟨progress_rate_limit.1 true true 1050 _ _ _ ⟨50, 1000, 1⟩ (by decide) (by decide),
   progress_rate_limit.2 true true true true 1000 1050 [] _ (RId.str "tok-1")
      ⟨10, none, none⟩ ⟨20, none, none⟩ 10 ⟨10, 1000, 1⟩
      (by decide) (by decide) (by decide) (by decide)⟩

/-! ### Sample data for shipper witnesses -/

def sampleLogA : LogEntry :=
  ⟨"2024-01-01T00:00:00Z", "info", "s1", "alice", "notion", "client",
    "query-db", "started", "notion-mcp", "", ""⟩

def sampleLogB : LogEntry :=
  ⟨"2024-01-01T00:00:01Z", "warn", "s1", "alice", "notion", "tools",
    "query-db", "slow", "notion-mcp", "", ""⟩

def sampleLogC : LogEntry :=
  ⟨"2024-01-01T00:00:02Z", "error", "s2", "bob", "notion", "client",
    "create-page", "failed", "notion-mcp", "", ""⟩

def sampleCfg : LogShipperConfig :=
  ⟨"https://logs.example.com/ingest", "key-1", false, 2, 5000, 3, true⟩

/-! ### C2: failed flush re-queues the batch at the head -/

/-- A flush whose delivery fails unshifts the spliced batch back ahead of
the remainder and of entries added during the await, and rethrows. -/
theorem flush_failure_eq (cfg : LogShipperConfig) (q added : List LogEntry)
    (outcomes : Nat → AttemptOutcome) (e : DeliveryError)
    (hen : cfg.enabled = true) (hne : q ≠ [])
    (hfail : (sendLogsWithRetry cfg.maxRetries outcomes).outcome = .error e) :
    flush cfg q added outcomes =
      (q.take cfg.batchSize ++ (q.drop cfg.batchSize ++ added), some e) ∧
    flush cfg q added outcomes = (q ++ added, some e) := by
  have hq : q.isEmpty = false := by
    cases q
    · exact absurd rfl hne
    · rfl
  have h1 : flush cfg q added outcomes =
      (q.take cfg.batchSize ++ (q.drop cfg.batchSize ++ added), some e) := by
    rw [flush, hen, hq]
    simp [hfail]
  refine ⟨h1, ?_⟩
  rw [h1, ← List.append_assoc, List.take_append_drop]

/-- C2: when delivery of the spliced batch fails (retries exhausted or a
non-retryable error), flush unshifts the whole batch back onto the head of
the queue, in its original order, ahead of the spliced remainder and of
everything enqueued while the delivery was awaited, and rethrows the error;
the resulting queue is exactly the original queue followed by the new
entries, so FIFO order across retries is preserved. -/
theorem flush_requeues_failed_batch :
    ∀ (cfg : LogShipperConfig) (q added : List LogEntry)
      (outcomes : Nat → AttemptOutcome) (e : DeliveryError),
    cfg.enabled = true → q ≠ [] →
    (sendLogsWithRetry cfg.maxRetries outcomes).outcome = .error e →
    flush cfg q added outcomes =
      (q.take cfg.batchSize ++ (q.drop cfg.batchSize ++ added), some e) ∧
    flush cfg q added outcomes = (q ++ added, some e) := by
  intro cfg q added o e hen hne hfail
  exact flush_failure_eq cfg q added o e hen hne hfail

/-- C2 witness: with batchSize 2 a failing delivery (network error on every
attempt) puts the two-record batch back ahead of the remainder and of an
entry added during the await, and the error is rethrown. -/
theorem flush_requeues_failed_batch_witness :
    flush sampleCfg [sampleLogA, sampleLogB, sampleLogC] [sampleLogA]
        (fun _ => .fail .network) =
      ([sampleLogA, sampleLogB] ++ ([sampleLogC] ++ [sampleLogA]),
        some .network) ∧
    flush sampleCfg [sampleLogA, sampleLogB, sampleLogC] [sampleLogA]
        (fun _ => .fail .network) =
      ([sampleLogA, sampleLogB, sampleLogC] ++ [sampleLogA], some .network) :=
  flush_requeues_failed_batch sampleCfg [sampleLogA, sampleLogB, sampleLogC]
    [sampleLogA] (fun _ => .fail .network) .network rfl (by decide) rfl

/-! ### C3: retry and backoff arithmetic -/

/-- When every sendLogs call fails retryably, the loop makes every attempt,
sleeps (429 ? 1000 : 500) * 2 ^ (attempt - 1) ms after each non-final one,
and rethrows the final attempt's error. -/
theorem retryGo_all_retryable (e : Nat → DeliveryError) (mr : Nat)
    (hre : ∀ i, 1 ≤ i → i ≤ mr → isNonRetryable (statusOf (e i)) = false) :
    ∀ (fuel attempt : Nat) (delays : List Nat),
    1 ≤ attempt → attempt ≤ mr → attempt + fuel = mr + 1 →
    retryGo (fun i => .fail (e i)) mr attempt fuel delays =
      ⟨mr,
        delays.reverse ++ (List.range' attempt (mr - attempt)).map
          (fun i => (if statusOf (e i) = some 429 then 1000 else 500) * 2 ^ (i - 1)),
        .error (e mr)⟩ := by
  intro fuel
  induction fuel with
  | zero =>
    intro attempt delays h1 h2 h3
    omega
  | succ fuel ih =>
    intro attempt delays h1 h2 h3
    rw [retryGo]
    simp only [hre attempt h1 h2, Bool.false_eq_true, if_false]
    by_cases ha : attempt = mr
    · subst ha
      simp
    · have ha' : attempt < mr := lt_of_le_of_ne h2 ha
      rw [if_neg ha]
      rw [ih (attempt + 1) _ (by omega) (by omega) (by omega)]
      have hr : List.range' attempt (mr - attempt) =
          attempt :: List.range' (attempt + 1) (mr - (attempt + 1)) := by
        have : mr - attempt = (mr - (attempt + 1)) + 1 := by omega
        rw [this, List.range'_succ]
      rw [hr]
      simp

/-- A non-retryable client error (status in [400,500) other than 429) on the
first attempt aborts the loop at once: one delivery attempt, no backoff,
error rethrown. -/
theorem sendRetry_nonretryable_first (mr st : Nat) (outcomes : Nat → AttemptOutcome)
    (hmr : 1 ≤ mr) (h4 : 400 ≤ st) (h5 : st < 500) (h9 : st ≠ 429)
    (ho : outcomes 1 = .fail (.http st)) :
    sendLogsWithRetry mr outcomes = ⟨1, [], .error (.http st)⟩ := by
  cases mr with
  | zero => omega
  | succ k =>
    rw [sendLogsWithRetry, retryGo, ho]
    have hnr : isNonRetryable (statusOf (DeliveryError.http st)) = true := by
      simp [isNonRetryable, statusOf, h4, h5, h9]
    simp [hnr]

/-- C3: (i) when every attempt fails retryably (5xx, 429 or a network
error), each attempt n < maxRetries is followed by a delay of exactly
1000 * 2 ^ (n - 1) ms when its status was 429 and 500 * 2 ^ (n - 1) ms
otherwise, and the final attempt's error is rethrown instead of retried;
(ii) a non-retryable status in [400,500) other than 429 on the first attempt
yields exactly one delivery attempt, no delay, and an immediate rethrow;
(iii) after such a failure flush puts the attempted records back, so the
queue again contains them. -/
theorem retry_backoff_policy :
    (∀ (mr : Nat) (e : Nat → DeliveryError),
      1 ≤ mr →
      (∀ i, 1 ≤ i → i ≤ mr → isNonRetryable (statusOf (e i)) = false) →
      sendLogsWithRetry mr (fun i => .fail (e i)) =
        ⟨mr,
          (List.range' 1 (mr - 1)).map
            (fun i => (if statusOf (e i) = some 429 then 1000 else 500) * 2 ^ (i - 1)),
          .error (e mr)⟩) ∧
    (∀ (mr st : Nat) (outcomes : Nat → AttemptOutcome),
      1 ≤ mr → 400 ≤ st → st < 500 → st ≠ 429 →
      outcomes 1 = .fail (.http st) →
      sendLogsWithRetry mr outcomes = ⟨1, [], .error (.http st)⟩) ∧
    (∀ (cfg : LogShipperConfig) (q added : List LogEntry) (st : Nat)
       (outcomes : Nat → AttemptOutcome),
      cfg.enabled = true → q ≠ [] → 1 ≤ cfg.maxRetries →
      400 ≤ st → st < 500 → st ≠ 429 →
      outcomes 1 = .fail (.http st) →
      flush cfg q added outcomes = (q ++ added, some (.http st))) := by
  refine ⟨?_, sendRetry_nonretryable_first, ?_⟩
  · intro mr e hmr hre
    rw [sendLogsWithRetry,
      retryGo_all_retryable e mr hre mr 1 [] le_rfl hmr (by omega)]
    simp
  · intro cfg q added st o hen hne hmr h4 h5 h9 ho
    have hfail : (sendLogsWithRetry cfg.maxRetries o).outcome = .error (.http st) := by
      rw [sendRetry_nonretryable_first cfg.maxRetries st o hmr h4 h5 h9 ho]
    exact (flush_failure_eq cfg q added o (.http st) hen hne hfail).2

/-- C3 witness: with maxRetries 3 and failures 500, 429, network the delays
are 500 * 2 ^ 0 and 1000 * 2 ^ 1 and the third attempt's error is rethrown;
a 400 on the first attempt makes exactly one attempt with no delay; and the
flush that hit it has its record back in the queue (ahead of a concurrently
added one). -/
theorem retry_backoff_policy_witness :
    sendLogsWithRetry 3
        (fun i => .fail (if i = 1 then .http 500 else if i = 2 then .http 429 else .network)) =
      ⟨3, [500, 2000], .error .network⟩ ∧
    sendLogsWithRetry 3 (fun _ => .fail (.http 400)) = ⟨1, [], .error (.http 400)⟩ ∧
    flush sampleCfg [sampleLogA] [sampleLogB] (fun _ => .fail (.http 400)) =
      ([sampleLogA] ++ [sampleLogB], some (.http 400)) := by
  refine ⟨?_, ?_, ?_⟩
  · have h := retry_backoff_policy.1 3
      (fun i => if i = 1 then .http 500 else if i = 2 then .http 429 else .network)
      (by omega) (by intro i h1 h3; interval_cases i <;> rfl)
    simpa using h
  · exact retry_backoff_policy.2.1 3 400 _ (by omega) (by omega) (by omega)
      (by omega) rfl
  · exact retry_backoff_policy.2.2 sampleCfg [sampleLogA] [sampleLogB] 400 _
      rfl (by decide) (by decide) (by omega) (by omega) (by omega) rfl

/-! ### C7: transported records are well-formed -/

/-- The level map always produces one of the five non-empty API level
strings. -/
theorem mapLogLevel_ne_empty (lv : String) : mapLogLevelToValidEnum lv ≠ "" := by
  simp only [mapLogLevelToValidEnum]
  split_ifs <;> simp

/-- C7: every record of the batch handed to transport
(validateAndCleanLogs) has non-empty timestamp, level, user and message; a
record that would still be malformed after normalization never appears in a
transported batch (each retry re-runs the same normalization on the same
input records, so it is never transported later either); and normalization
itself always yields a well-formed record as long as the clock renders a
non-empty ISO timestamp. -/
theorem transported_records_wellformed :
    ∀ (env : ShipperEnv) (nowIso freshSession : String) (logs : List LogEntry),
    (∀ r ∈ validateAndCleanLogs env nowIso freshSession logs,
      r.timestamp ≠ "" ∧ r.level ≠ "" ∧ r.user ≠ "" ∧ r.message ≠ "") ∧
    (∀ l ∈ logs, goodRecord (cleanLog env nowIso freshSession l) = false →
      cleanLog env nowIso freshSession l ∉
        validateAndCleanLogs env nowIso freshSession logs) ∧
    (nowIso ≠ "" → ∀ l, goodRecord (cleanLog env nowIso freshSession l) = true) := by
  intro env nowIso freshSession logs
  refine ⟨?_, ?_, ?_⟩
  · intro r hr
    have hpred : goodRecord r = true := (List.mem_filter.mp hr).2
    simpa [goodRecord, Bool.and_eq_true, Bool.not_eq_true', decide_eq_false_iff_not,
      and_assoc] using hpred
  · intro l _ hbad hmem
    have hpred : goodRecord (cleanLog env nowIso freshSession l) = true :=
      (List.mem_filter.mp hmem).2
    rw [hbad] at hpred
    cases hpred
  · intro hnow l
    have hts : (cleanLog env nowIso freshSession l).timestamp ≠ "" := by
      simp only [cleanLog]
      split_ifs with h
      · exact hnow
      · exact h
    have hlv : (cleanLog env nowIso freshSession l).level ≠ "" :=
      mapLogLevel_ne_empty l.level
    have hus : (cleanLog env nowIso freshSession l).user ≠ "" := by
      simp only [cleanLog]
      split_ifs with h1 h2
      · decide
      · exact h2
      · exact h1
    have hms : (cleanLog env nowIso freshSession l).message ≠ "" := by
      simp only [cleanLog]
      split_ifs with h
      · decide
      · exact h
    simp [goodRecord, hts, hlv, hus, hms]

/-- C7 witness: normalizing a batch holding one fully empty record and one
ordinary record yields records whose timestamp, level, user and message are
all non-empty, and the all-empty record is repaired (not dropped) by the
defaults. -/
theorem transported_records_wellformed_witness :
    (∀ r ∈ validateAndCleanLogs ⟨"", "", ""⟩ "2024-01-01T00:00:00Z" "sess-1"
        [⟨"", "", "", "", "", "", "", "", "", "", ""⟩, sampleLogA],
      r.timestamp ≠ "" ∧ r.level ≠ "" ∧ r.user ≠ "" ∧ r.message ≠ "") ∧
    goodRecord (cleanLog ⟨"", "", ""⟩ "2024-01-01T00:00:00Z" "sess-1"
      ⟨"", "", "", "", "", "", "", "", "", "", ""⟩) = true :=
  ⟨(transported_records_wellformed ⟨"", "", ""⟩ "2024-01-01T00:00:00Z" "sess-1"
      [⟨"", "", "", "", "", "", "", "", "", "", ""⟩, sampleLogA]).1,
   (transported_records_wellformed ⟨"", "", ""⟩ "2024-01-01T00:00:00Z" "sess-1"
      [⟨"", "", "", "", "", "", "", "", "", "", ""⟩, sampleLogA]).2.2
     (by decide) ⟨"", "", "", "", "", "", "", "", "", "", ""⟩⟩

/-! ### C8: construction-time configuration validation -/

/-- C8 counterexample: the constructor returns before validating whenever
config.enabled is false, so a configuration with an empty (or non-HTTPS)
endpoint does not throw — contradicting the claim that construction throws
for every configuration with a bad endpoint. -/
theorem construct_disabled_skips_validation :
    constructShipper ⟨"", "", false, 500, 5000, 3, false⟩ = ([], .ok ()) ∧
    (⟨"", "", false, 500, 5000, 3, false⟩ : LogShipperConfig).endpoint = "" ∧
    (⟨"", "", false, 500, 5000, 3, false⟩ : LogShipperConfig).enabled = false :=
  ⟨rfl, rfl, rfl⟩

/-- C8 as amended: when shipping is enabled, construction throws exactly when
the endpoint is empty, or does not use HTTPS, or requireApiKey is set with no
API key present; and with no key present but none required (and a valid
endpoint) construction succeeds, logging only the forward-looking warning.
When shipping is disabled the constructor returns without validating. -/
theorem construct_validation_when_enabled :
    (∀ c : LogShipperConfig, c.enabled = true →
      ((∃ msg, (constructShipper c).2 = Except.error msg) ↔
        (c.endpoint = "" ∨ strStartsWith c.endpoint "https://" = false ∨
          (c.requireApiKey = true ∧ c.apiKey = "")))) ∧
    (∀ c : LogShipperConfig, c.enabled = true → c.apiKey = "" →
      c.requireApiKey = false → c.endpoint ≠ "" →
      strStartsWith c.endpoint "https://" = true →
      constructShipper c =
        (["API key not configured. Log shipping will work now but will require an API key in the future."],
          Except.ok ())) ∧
    (∀ c : LogShipperConfig, c.enabled = false →
      constructShipper c = ([], Except.ok ())) := by
  refine ⟨?_, ?_, ?_⟩
  · intro c hen
    rw [constructShipper, hen]
    simp only [Bool.not_true, Bool.false_eq_true, if_false]
    rw [validateConfig]
    by_cases h1 : c.endpoint = ""
    · simp [h1]
    · rw [if_neg h1]
      by_cases h2 : c.requireApiKey = true ∧ c.apiKey = ""
      · simp [h2.1, h2.2, h1]
      · have h2' : (c.requireApiKey && c.apiKey = "") = false := by
          rcases Bool.eq_false_or_eq_true c.requireApiKey with hr | hr
          · simp only [hr, Bool.true_and, decide_eq_false_iff_not]
            exact fun hk => h2 ⟨hr, hk⟩
          · simp [hr]
        rw [h2']
        simp only [Bool.false_eq_true, if_false]
        by_cases h3 : strStartsWith c.endpoint "https://" = true
        · simp [h3, h1, h2]
        · have h3' : strStartsWith c.endpoint "https://" = false :=
            Bool.eq_false_iff.mpr h3
          simp [h3', h1]
  · intro c hen hkey hreq hep hhts
    rw [constructShipper, hen]
    simp only [Bool.not_true, Bool.false_eq_true, if_false]
    rw [validateConfig, if_neg hep]
    simp [hkey, hreq, hhts]
  · intro c hdis
    simp [constructShipper, hdis]

/-- C8 amended-claim witness: an enabled config with a non-HTTPS endpoint
throws, and an enabled HTTPS config with no key and requireApiKey unset
constructs successfully with exactly the warning. -/
theorem construct_validation_when_enabled_witness :
    (∃ msg,
      (constructShipper ⟨"http://logs.example.com", "", false, 500, 5000, 3, true⟩).2 =
        Except.error msg) ∧
    constructShipper ⟨"https://logs.example.com", "", false, 500, 5000, 3, true⟩ =
      (["API key not configured. Log shipping will work now but will require an API key in the future."],
        Except.ok ()) :=
  ⟨(construct_validation_when_enabled.1
      ⟨"http://logs.example.com", "", false, 500, 5000, 3, true⟩ rfl).mpr
      (Or.inr (Or.inl (by decide))),
   construct_validation_when_enabled.2.1
      ⟨"https://logs.example.com", "", false, 500, 5000, 3, true⟩ rfl rfl rfl
      (by decide) (by decide)⟩

/-! ### C9: outstanding delivery batches -/

/-- C9 counterexample: flush has no in-flight guard, so two flush
invocations interleaved on the event loop (here: two addLog calls with
batchSize 1, then two flushes reaching their await) leave two delivery
attempts in flight at once — contradicting the claim that at most one batch
is ever outstanding. -/
theorem two_batches_in_flight :
    (shipRun ⟨"https://logs.example.com/ingest", "key-1", false, 1, 5000, 3, true⟩
      [.add sampleLogA, .add sampleLogB, .start, .start]).inFlight =
      [[sampleLogA], [sampleLogB]] := by
  decide

/-- C9 as amended: several delivery batches can be outstanding concurrently,
but the interleaved flushes never duplicate or lose records: in every
reachable event-loop state the entries in the queue, the entries of all
in-flight batches and the successfully delivered entries add up exactly to
the entries accepted by addLog. -/
theorem shipper_records_conserved :
    ∀ (cfg : LogShipperConfig) (steps : List ShipStep),
    (shipRun cfg steps).queue.length +
      ((shipRun cfg steps).inFlight.map List.length).sum +
      (shipRun cfg steps).delivered = (shipRun cfg steps).accepted := by
  intro cfg steps
  suffices h : ∀ (s : ShipperLoopState),
      s.queue.length + (s.inFlight.map List.length).sum + s.delivered = s.accepted →
      (steps.foldl (shipStep cfg) s).queue.length +
        ((steps.foldl (shipStep cfg) s).inFlight.map List.length).sum +
        (steps.foldl (shipStep cfg) s).delivered =
        (steps.foldl (shipStep cfg) s).accepted by
    exact h ShipperLoopState.init (by simp [ShipperLoopState.init])
  induction steps with
  | nil => intro s hs; simpa using hs
  | cons st rest ih =>
    intro s hs
    simp only [List.foldl_cons]
    apply ih
    cases st with
    | add e =>
      by_cases hen : cfg.enabled
      · simp [shipStep, hen] at hs ⊢
        omega
      · simp only [shipStep]
        simp [Bool.eq_false_iff.mpr hen]
        exact hs
    | start =>
      by_cases hg : (!cfg.enabled || s.queue.isEmpty) = true
      · simp [shipStep, hg]
        exact hs
      · simp only [shipStep, hg, Bool.false_eq_true, if_false]
        simp only [List.map_append, List.sum_append, List.map_cons, List.sum_cons,
          List.map_nil, List.sum_nil, List.length_drop, List.length_take]
        omega
    | complete i ok =>
      rcases hb : s.inFlight[i]? with _ | b
      · simp [shipStep, hb]
        exact hs
      · have hsum := sum_map_length_eraseIdx s.inFlight i b hb
        cases ok <;> simp [shipStep, hb] <;> omega

end NotionMcp
